import Mathlib

/-!
Verification of the Trading-Bot repository core: input validators
(`bot/validators.py`), the signed request envelope (`bot/client.py`),
and order orchestration (`bot/orders.py`), shallowly embedded in Lean.

Python strings are modelled as Lean `String`; the model of character
classes (whitespace, upper-casing) covers the ASCII range, which is the
range all claims and counterexamples live in.  `decimal.Decimal` is
modelled exactly: a finite decimal keeps its sign, integer coefficient
and exponent, so values are exact rationals, as in Python.
-/

namespace TradingBot

/-- ASCII whitespace, as stripped by Python `str.strip()` (ASCII range). -/
def isPySpace (c : Char) : Bool :=
  c = ' ' || c = '\t' || c = '\n' || c = '\x0b' || c = '\x0c' || c = '\r'

/-- Python `str.strip()` on the character list (ASCII whitespace). -/
def stripChars (l : List Char) : List Char :=
  (((l.dropWhile isPySpace).reverse).dropWhile isPySpace).reverse

/-- Python `str.strip()`. -/
def pyStrip (s : String) : String := ⟨stripChars s.data⟩

/-- Python `str.upper()` on one character (ASCII range; other characters
are left unchanged in this model). -/
def pyUpperChar (c : Char) : Char :=
  if 'a' ≤ c ∧ c ≤ 'z' then Char.ofNat (c.toNat - 32) else c

/-- Python `str.upper()` (ASCII range). -/
def pyUpper (s : String) : String := ⟨s.data.map pyUpperChar⟩

/-- Python `str.lower()` on one character (ASCII range). -/
def pyLowerChar (c : Char) : Char :=
  if 'A' ≤ c ∧ c ≤ 'Z' then Char.ofNat (c.toNat + 32) else c

/-- Decimal digit value of a digit character. -/
def digitVal (c : Char) : ℕ := c.toNat - 48

/-- Value of a digit string read in base 10 (leading zeros allowed). -/
def digitsVal (l : List Char) : ℕ := l.foldl (fun a c => 10 * a + digitVal c) 0

/-- The character for a decimal digit value. -/
def digitChar (n : ℕ) : Char := Char.ofNat (48 + n)

/-- Decimal digit characters of a natural number, most significant
first; structurally recursive on a fuel bound so that it reduces. -/
def natReprAux : ℕ → ℕ → List Char
  | 0, _ => []
  | f + 1, n =>
    if n < 10 then [digitChar n]
    else natReprAux f (n / 10) ++ [digitChar (n % 10)]

/-- Decimal digit characters of a natural number, most significant first. -/
def natRepr (n : ℕ) : List Char := natReprAux (n + 1) n

theorem natReprAux_congr : ∀ f g n : ℕ, n < f → n < g →
    natReprAux f n = natReprAux g n := by
  intro f
  induction f with
  | zero => intro g n h; omega
  | succ f ih =>
    intro g n hf hg
    cases g with
    | zero => omega
    | succ g =>
      show natReprAux (f + 1) n = natReprAux (g + 1) n
      simp only [natReprAux]
      by_cases h10 : n < 10
      · simp [h10]
      · simp only [if_neg h10]
        have hd : n / 10 < n := Nat.div_lt_self (by omega) (by omega)
        rw [ih g (n / 10) (by omega) (by omega)]

/-- Unfolding equation of `natRepr`. -/
theorem natRepr_eq (n : ℕ) : natRepr n =
    if n < 10 then [digitChar n] else natRepr (n / 10) ++ [digitChar (n % 10)] := by
  show natReprAux (n + 1) n = _
  simp only [natReprAux]
  by_cases h10 : n < 10
  · simp [h10]
  · simp only [if_neg h10]
    have hd : n / 10 < n := Nat.div_lt_self (by omega) (by omega)
    rw [natReprAux_congr n (n / 10 + 1) (n / 10) (by omega) (by omega)]
    rfl

/-- Python `str()` of an integer. -/
def pyIntRepr (n : ℤ) : String :=
  ⟨(if n < 0 then ['-'] else []) ++ natRepr n.natAbs⟩

/-!
## The `decimal.Decimal` model

A parsed Python `Decimal` is either a finite number — sign, integer
coefficient (leading zeros stripped by the constructor), exponent —
an infinity, or a NaN.  The value of `fin neg c e` is `±c·10^e`.
-/

/-- Model of a Python `decimal.Decimal` value. -/
inductive PyDec where
  | fin (neg : Bool) (coeff : ℕ) (exp : ℤ)
  | inf (neg : Bool)
  | nan
deriving Repr, DecidableEq

/-- Exact rational value of a finite decimal. -/
def PyDec.val : PyDec → ℚ
  | .fin neg c e => (if neg then -1 else 1) * (c : ℚ) * (10 : ℚ) ^ e
  | _ => 0

/-- Split a leading run of ASCII digits from a character list. -/
def spanDigits : List Char → List Char × List Char
  | [] => ([], [])
  | c :: t =>
    if c.isDigit then
      let (d, r) := spanDigits t
      (c :: d, r)
    else ([], c :: t)

/-- Parse the numeric part (after sign removal) of a decimal string:
`digits [. digits] [e [sign] digits]`, with at least one digit in the
coefficient.  Mirrors the grammar of the `Decimal` constructor. -/
def parseDecBody (neg : Bool) (cs : List Char) : Option PyDec :=
  let (ip, r1) := spanDigits cs
  let (fp, r2) :=
    match r1 with
    | '.' :: t => spanDigits t
    | _ => ([], r1)
  if ip = [] ∧ fp = [] then none
  else
    match r2 with
    | [] => some (.fin neg (digitsVal (ip ++ fp)) (-(fp.length : ℤ)))
    | 'e' :: t =>
      let (eneg, t2) :=
        match t with
        | '+' :: u => (false, u)
        | '-' :: u => (true, u)
        | u => (false, u)
      let (ed, r3) := spanDigits t2
      if ed = [] ∨ r3 ≠ [] then none
      else
        some (.fin neg (digitsVal (ip ++ fp))
          ((if eneg then -(digitsVal ed : ℤ) else (digitsVal ed : ℤ)) - fp.length))
    | _ => none

/-- NaN forms of the decimal grammar: `nan [digits]` or `snan [digits]`
(already lower-cased). -/
def isNanForm (cs : List Char) : Bool :=
  (cs.take 3 = ['n', 'a', 'n'] && (cs.drop 3).all Char.isDigit) ||
  (cs.take 4 = ['s', 'n', 'a', 'n'] && (cs.drop 4).all Char.isDigit)

/-- Strip an optional leading sign, returning the sign and the rest. -/
def splitSign (cs : List Char) : Bool × List Char :=
  match cs with
  | [] => (false, [])
  | c :: t => if c = '+' then (false, t) else if c = '-' then (true, t) else (false, c :: t)

/-- Model of the Python `Decimal(str)` constructor: strip whitespace,
drop underscores, case-insensitive; accepts finite numerals with
optional exponent, infinities and NaNs.  `none` models the constructor
raising `decimal.InvalidOperation`. -/
def pyDecParse (s : String) : Option PyDec :=
  let cs := ((stripChars s.data).filter (fun c => c ≠ '_')).map pyLowerChar
  let (neg, rest) := splitSign cs
  if rest = ['i', 'n', 'f'] ∨ rest = ['i', 'n', 'f', 'i', 'n', 'i', 't', 'y'] then
    some (.inf neg)
  else if isNanForm rest then some .nan
  else parseDecBody neg rest

/-- `Decimal.__str__` (to-scientific-string) for a finite decimal. -/
def decFinStr (neg : Bool) (coeff : ℕ) (e : ℤ) : List Char :=
  let ds := natRepr coeff
  let adj : ℤ := e + ds.length - 1
  let body :=
    if e ≤ 0 ∧ -6 ≤ adj then
      if e = 0 then ds
      else if 0 ≤ adj then
        ds.take (ds.length - (-e).toNat) ++ '.' :: ds.drop (ds.length - (-e).toNat)
      else '0' :: '.' :: List.replicate ((-e).toNat - ds.length) '0' ++ ds
    else
      let head := ds.take 1 ++ (if ds.length > 1 then '.' :: ds.drop 1 else [])
      head ++ 'E' :: (if 0 ≤ adj then '+' :: natRepr adj.toNat
                      else '-' :: natRepr (-adj).toNat)
  (if neg then ['-'] else []) ++ body

/-- Python `str()` of a `Decimal`. -/
def pyDecStr : PyDec → String
  | .fin neg c e => ⟨decFinStr neg c e⟩
  | .inf neg => ⟨(if neg then ['-'] else []) ++ "Infinity".data⟩
  | .nan => "NaN"

/-!
## JSON values and the Python exception taxonomy

`JVal` models a decoded JSON body; `PyExc` models the exception kinds
the embedded code can raise.
-/

/-- A decoded JSON value. -/
inductive JVal where
  | str (s : String)
  | int (n : ℤ)
  | bool (b : Bool)
  | null
  | arr (l : List JVal)
  | obj (l : List (String × JVal))

/-- The exception kinds raised by the embedded code. -/
inductive PyExc where
  | validationError (msg : String)
  | invalidOperation
  | typeError
  | binanceAPIError (code : JVal) (msg : JVal) (status : ℕ)
  | connectionError (msg : String)
  | timeoutError (msg : String)
  | valueError
  | httpError (status : ℕ)
  | otherExc (msg : String)

/-- Python `d <= 0` on a `Decimal` (right operand `int 0`): exact value
comparison for finite values and infinities; ordering against a NaN
raises `decimal.InvalidOperation`. -/
def decLeZero : PyDec → Except PyExc Bool
  | .fin neg c e => .ok (decide (PyDec.val (.fin neg c e) ≤ 0))
  | .inf neg => .ok neg
  | .nan => .error .invalidOperation

/-!
## `bot/validators.py`
-/

/-- A character admitted by the class `[A-Z0-9]`. -/
def upperAlnum (c : Char) : Bool :=
  ('A' ≤ c ∧ c ≤ 'Z') ∨ ('0' ≤ c ∧ c ≤ '9')

/-- The pattern `[A-Z0-9]{3,20}` against a whole character list. -/
def symbolCore (l : List Char) : Bool :=
  3 ≤ l.length ∧ l.length ≤ 20 ∧ l.all upperAlnum

/-- Python `re.match` of `^[A-Z0-9]{3,20}$` as a whole-string test:
`$` also matches just before a trailing newline. -/
def symbolMatch (s : String) : Bool :=
  symbolCore s.data ||
    (s.data.getLast? = some '\n' && symbolCore s.data.dropLast)

/-- `validators.validate_symbol`. -/
def validate_symbol (symbol : String) : Except PyExc String :=
  let s := pyUpper (pyStrip symbol)
  if symbolMatch s then .ok s
  else .error (.validationError
    ("Invalid symbol \x27" ++ symbol ++
     "\x27. Expected uppercase alphanumeric (e.g. BTCUSDT)."))

/-- `validators.validate_side`. -/
def validate_side (side : String) : Except PyExc String :=
  let s := pyUpper (pyStrip side)
  if s = "BUY" ∨ s = "SELL" then .ok s
  else .error (.validationError
    ("Invalid side \x27" ++ side ++ "\x27. Must be one of: BUY, SELL."))

/-- `validators.validate_order_type`. -/
def validate_order_type (order_type : String) : Except PyExc String :=
  let ot := pyUpper (pyStrip order_type)
  if ot = "MARKET" ∨ ot = "LIMIT" ∨ ot = "STOP_MARKET" ∨ ot = "STOP_LIMIT" then .ok ot
  else .error (.validationError
    ("Invalid order type \x27" ++ order_type ++
     "\x27. Must be one of: LIMIT, MARKET, STOP_LIMIT, STOP_MARKET."))

/-- `validators.validate_quantity`: only the `Decimal` constructor is
inside the `try`, so a NaN that parses and then meets `qty <= 0`
propagates `InvalidOperation` uncaught. -/
def validate_quantity (quantity : String) : Except PyExc PyDec :=
  match pyDecParse quantity with
  | none => .error (.validationError
      ("Invalid quantity \x27" ++ quantity ++ "\x27. Must be a positive number."))
  | some qty =>
    match decLeZero qty with
    | .error e => .error e
    | .ok true => .error (.validationError
        ("Quantity must be greater than zero, got: " ++ pyDecStr qty ++ "."))
    | .ok false => .ok qty

/-- `price is None or str(price).strip() == ""`. -/
def priceBlank : Option String → Bool
  | none => true
  | some s => pyStrip s = ""

/-- `validators.validate_price`. -/
def validate_price (price : Option String) (order_type : String) :
    Except PyExc (Option PyDec) :=
  let ot := pyUpper (pyStrip order_type)
  if (ot = "LIMIT" ∨ ot = "STOP_LIMIT") ∧ priceBlank price then
    .error (.validationError ("Price is required for " ++ ot ++ " orders."))
  else if priceBlank price then .ok none
  else
    match pyDecParse (price.getD "") with
    | none => .error (.validationError
        ("Invalid price \x27" ++ price.getD "" ++ "\x27. Must be a positive number."))
    | some p =>
      match decLeZero p with
      | .error e => .error e
      | .ok true => .error (.validationError
          ("Price must be greater than zero, got: " ++ pyDecStr p ++ "."))
      | .ok false => .ok (some p)

/-- `validators.validate_stop_price`. -/
def validate_stop_price (stop_price : Option String) (order_type : String) :
    Except PyExc (Option PyDec) :=
  let ot := pyUpper (pyStrip order_type)
  if (ot = "STOP_MARKET" ∨ ot = "STOP_LIMIT") ∧ priceBlank stop_price then
    .error (.validationError
      ("Stop price (--stop-price) is required for " ++ ot ++ " orders."))
  else if priceBlank stop_price then .ok none
  else
    match pyDecParse (stop_price.getD "") with
    | none => .error (.validationError
        ("Invalid stop price \x27" ++ stop_price.getD "" ++
         "\x27. Must be a positive number."))
    | some sp =>
      match decLeZero sp with
      | .error e => .error e
      | .ok true => .error (.validationError
          ("Stop price must be greater than zero, got: " ++ pyDecStr sp ++ "."))
      | .ok false => .ok (some sp)

/-- The clean, typed parameter dict returned by `validate_all`. -/
structure OrderParams where
  symbol : String
  side : String
  order_type : String
  quantity : PyDec
  price : Option PyDec
  stop_price : Option PyDec

/-- `validators.validate_all`: the dict literal evaluates its six entries
in source order, so the first failure propagates. -/
def validate_all (symbol side order_type quantity : String)
    (price stop_price : Option String) : Except PyExc OrderParams := do
  let sy ← validate_symbol symbol
  let sd ← validate_side side
  let ot ← validate_order_type order_type
  let q ← validate_quantity quantity
  let p ← validate_price price order_type
  let sp ← validate_stop_price stop_price order_type
  return ⟨sy, sd, ot, q, p, sp⟩

/-!
## Python dicts of request parameters

Request parameter mappings are insertion-ordered association lists with
unique keys, exactly like Python dicts.  `dictSet` is `d[k] = v`
(update in place, else append); `dictMerge` is `{**a, **b}`.
-/

/-- A request parameter value: a Python `str` or `int`. -/
inductive PValue where
  | s (v : String)
  | i (n : ℤ)
deriving Repr, DecidableEq

/-- A Python dict of request parameters, in insertion order. -/
abbrev PyDict := List (String × PValue)

/-- `d[k] = v`: update the existing entry in place, else append. -/
def dictSet (d : PyDict) (k : String) (v : PValue) : PyDict :=
  match d with
  | [] => [(k, v)]
  | (k2, v2) :: t => if k2 = k then (k, v) :: t else (k2, v2) :: dictSet t k v

/-- `{**a, **b}`. -/
def dictMerge (a b : PyDict) : PyDict :=
  b.foldl (fun acc kv => dictSet acc kv.1 kv.2) a

/-- First value stored under a key, if any. -/
def dictLookup (d : PyDict) (k : String) : Option PValue :=
  match d with
  | [] => none
  | (k2, v) :: t => if k2 = k then some v else dictLookup t k

/-- Python `str()` of a parameter value. -/
def pValueStr : PValue → String
  | .s v => v
  | .i n => pyIntRepr n

/-!
## `urllib.parse.urlencode`

`urlencode` stringifies each key and value and percent-encodes their
UTF-8 bytes with `quote_plus`: unreserved bytes (ASCII letters, digits,
`_.-~`) pass through, space becomes `+`, everything else becomes `%XX`
with uppercase hex.
-/

/-- UTF-8 encoding of one character. -/
def utf8Bytes (c : Char) : List ℕ :=
  let n := c.toNat
  if n < 128 then [n]
  else if n < 2048 then [192 + n / 64, 128 + n % 64]
  else if n < 65536 then [224 + n / 4096, 128 + (n / 64) % 64, 128 + n % 64]
  else [240 + n / 262144, 128 + (n / 4096) % 64, 128 + (n / 64) % 64, 128 + n % 64]

/-- UTF-8 bytes of a string. -/
def strBytes (s : String) : List ℕ := s.data.flatMap utf8Bytes

/-- Bytes never quoted by `urllib.parse.quote`: ASCII letters, digits,
and `_`, `.`, `-`, `~`. -/
def urlSafeByte (b : ℕ) : Bool :=
  (65 ≤ b ∧ b ≤ 90) ∨ (97 ≤ b ∧ b ≤ 122) ∨ (48 ≤ b ∧ b ≤ 57) ∨
    b = 95 ∨ b = 46 ∨ b = 45 ∨ b = 126

/-- Uppercase hex digit character of a value below 16. -/
def hexUpperChar (n : ℕ) : Char :=
  if n < 10 then Char.ofNat (48 + n) else Char.ofNat (55 + n)

/-- `quote_plus` on one byte. -/
def quotePlusByte (b : ℕ) : List Char :=
  if b = 32 then ['+']
  else if urlSafeByte b then [Char.ofNat b]
  else ['%', hexUpperChar (b / 16 % 16), hexUpperChar (b % 16)]

/-- `urllib.parse.quote_plus` with empty `safe`. -/
def quotePlus (s : String) : String := ⟨(strBytes s).flatMap quotePlusByte⟩

/-- Join already-encoded `key=value` pairs with `&`. -/
def joinAmp : List String → String
  | [] => ""
  | [x] => x
  | x :: xs => x ++ "&" ++ joinAmp xs

/-- One `key=value` pair of `urlencode`. -/
def encodePair (kv : String × PValue) : String :=
  quotePlus kv.1 ++ "=" ++ quotePlus (pValueStr kv.2)

/-- `urllib.parse.urlencode` over a dict, in insertion order. -/
def urlencode (d : PyDict) : String := joinAmp (d.map encodePair)

/-!
## SHA-256 and HMAC

Machine words are naturals below `2^32`; every operation reduces
modulo `2^32` where overflow matters.  Bytes are naturals below 256.
-/

/-- Right rotation of a 32-bit word. -/
def rotr32 (n x : ℕ) : ℕ := x / 2 ^ n + x % 2 ^ n * 2 ^ (32 - n)

/-- Bitwise complement of a 32-bit word. -/
def not32 (x : ℕ) : ℕ := 2 ^ 32 - 1 - x

/-- SHA-256 `Ch`. -/
def shaCh (x y z : ℕ) : ℕ := Nat.xor (Nat.land x y) (Nat.land (not32 x) z)

/-- SHA-256 `Maj`. -/
def shaMaj (x y z : ℕ) : ℕ :=
  Nat.xor (Nat.xor (Nat.land x y) (Nat.land x z)) (Nat.land y z)

/-- SHA-256 `Σ0`. -/
def shaS0 (x : ℕ) : ℕ := Nat.xor (Nat.xor (rotr32 2 x) (rotr32 13 x)) (rotr32 22 x)

/-- SHA-256 `Σ1`. -/
def shaS1 (x : ℕ) : ℕ := Nat.xor (Nat.xor (rotr32 6 x) (rotr32 11 x)) (rotr32 25 x)

/-- SHA-256 `σ0`. -/
def shaG0 (x : ℕ) : ℕ := Nat.xor (Nat.xor (rotr32 7 x) (rotr32 18 x)) (x / 2 ^ 3)

/-- SHA-256 `σ1`. -/
def shaG1 (x : ℕ) : ℕ := Nat.xor (Nat.xor (rotr32 17 x) (rotr32 19 x)) (x / 2 ^ 10)

/-- The 64 SHA-256 round constants, in decimal. -/
def shaK : List ℕ :=
  [1116352408, 1899447441, 3049323471, 3921009573,
   961987163, 1508970993, 2453635748, 2870763221,
   3624381080, 310598401, 607225278, 1426881987,
   1925078388, 2162078206, 2614888103, 3248222580,
   3835390401, 4022224774, 264347078, 604807628,
   770255983, 1249150122, 1555081692, 1996064986,
   2554220882, 2821834349, 2952996808, 3210313671,
   3336571891, 3584528711, 113926993, 338241895,
   666307205, 773529912, 1294757372, 1396182291,
   1695183700, 1986661051, 2177026350, 2456956037,
   2730485921, 2820302411, 3259730800, 3345764771,
   3516065817, 3600352804, 4094571909, 275423344,
   430227734, 506948616, 659060556, 883997877,
   958139571, 1322822218, 1537002063, 1747873779,
   1955562222, 2024104815, 2227730452, 2361852424,
   2428436474, 2756734187, 3204031479, 3329325298]

/-- Working state of the SHA-256 compression function. -/
structure ShaState where
  a : ℕ
  b : ℕ
  c : ℕ
  d : ℕ
  e : ℕ
  f : ℕ
  g : ℕ
  h : ℕ

/-- Initial SHA-256 state, in decimal. -/
def shaInit : ShaState :=
  ⟨1779033703, 3144134277, 1013904242, 2773480762,
   1359893119, 2600822924, 528734635, 1541459225⟩

/-- One SHA-256 round. -/
def shaRound (st : ShaState) (k w : ℕ) : ShaState :=
  let t1 := (st.h + shaS1 st.e + shaCh st.e st.f st.g + k + w) % 2 ^ 32
  let t2 := (shaS0 st.a + shaMaj st.a st.b st.c) % 2 ^ 32
  ⟨(t1 + t2) % 2 ^ 32, st.a, st.b, st.c, (st.d + t1) % 2 ^ 32, st.e, st.f, st.g⟩

/-- Big-endian 32-bit words of a byte list. -/
def bytesToWords : List ℕ → List ℕ
  | b0 :: b1 :: b2 :: b3 :: rest =>
    (((b0 * 256 + b1) * 256 + b2) * 256 + b3) :: bytesToWords rest
  | _ => []

/-- Extend 16 message words to the 64-word schedule. -/
def shaSchedule (w16 : List ℕ) : List ℕ :=
  (List.range 48).foldl
    (fun w _ =>
      let n := w.length
      w ++ [(shaG1 (w.getD (n - 2) 0) + w.getD (n - 7) 0 +
             shaG0 (w.getD (n - 15) 0) + w.getD (n - 16) 0) % 2 ^ 32])
    w16

/-- Compress one padded 64-byte block into the state. -/
def shaBlock (st : ShaState) (block : List ℕ) : ShaState :=
  let ws := shaSchedule (bytesToWords block)
  let r := (shaK.zip ws).foldl (fun s kw => shaRound s kw.1 kw.2) st
  ⟨(st.a + r.a) % 2 ^ 32, (st.b + r.b) % 2 ^ 32, (st.c + r.c) % 2 ^ 32,
   (st.d + r.d) % 2 ^ 32, (st.e + r.e) % 2 ^ 32, (st.f + r.f) % 2 ^ 32,
   (st.g + r.g) % 2 ^ 32, (st.h + r.h) % 2 ^ 32⟩

/-- Split a byte list into 64-byte blocks. -/
def chunks64 (l : List ℕ) : List (List ℕ) :=
  if h : l = [] then []
  else l.take 64 :: chunks64 (l.drop 64)
  termination_by l.length
  decreasing_by
    simp only [List.length_drop]
    have : l.length ≠ 0 := fun hh => h (List.length_eq_zero.mp hh)
    omega

/-- Big-endian bytes of a 64-bit quantity. -/
def len64Bytes (n : ℕ) : List ℕ :=
  [n / 2 ^ 56 % 256, n / 2 ^ 48 % 256, n / 2 ^ 40 % 256, n / 2 ^ 32 % 256,
   n / 2 ^ 24 % 256, n / 2 ^ 16 % 256, n / 2 ^ 8 % 256, n % 256]

/-- SHA-256 message padding. -/
def shaPad (msg : List ℕ) : List ℕ :=
  let L := msg.length
  msg ++ 128 :: List.replicate ((119 - L % 64) % 64) 0 ++ len64Bytes (8 * L)

/-- Big-endian bytes of one 32-bit word. -/
def wordBytes (w : ℕ) : List ℕ :=
  [w / 2 ^ 24 % 256, w / 2 ^ 16 % 256, w / 2 ^ 8 % 256, w % 256]

/-- The 32 digest bytes of a final state. -/
def stateBytes (st : ShaState) : List ℕ :=
  wordBytes st.a ++ wordBytes st.b ++ wordBytes st.c ++ wordBytes st.d ++
  wordBytes st.e ++ wordBytes st.f ++ wordBytes st.g ++ wordBytes st.h

/-- SHA-256 of a byte list. -/
def sha256 (msg : List ℕ) : List ℕ :=
  stateBytes ((chunks64 (shaPad msg)).foldl shaBlock shaInit)

/-- Lowercase hex digit character of a value below 16. -/
def hexLowerChar (n : ℕ) : Char :=
  if n < 10 then Char.ofNat (48 + n) else Char.ofNat (87 + n)

/-- Lowercase hex characters of a byte list (`hexdigest`). -/
def hexChars : List ℕ → List Char
  | [] => []
  | b :: t => hexLowerChar (b / 16 % 16) :: hexLowerChar (b % 16) :: hexChars t

/-- `hmac.new(key, msg, hashlib.sha256).digest()`, block size 64. -/
def hmacSha256 (key msg : List ℕ) : List ℕ :=
  let k0 := if key.length > 64 then sha256 key else key
  let k1 := k0 ++ List.replicate (64 - k0.length) 0
  sha256 (k1.map (fun b => Nat.xor b 92) ++
          sha256 (k1.map (fun b => Nat.xor b 54) ++ msg))

/-- Hex HMAC-SHA256 of strings (`hexdigest`). -/
def hmacSha256Hex (key msg : String) : String :=
  ⟨hexChars (hmacSha256 (strBytes key) (strBytes msg))⟩

/-!
## `bot/client.py` — the signed request envelope

The network round trip is factored into pure pieces: building the
signed payload, choosing where it travels (query string or form body),
and interpreting the decoded response.
-/

namespace BinanceClient

/-- `BinanceClient._sign`: hex HMAC-SHA256 of the url-encoded params,
keyed by the API secret. -/
def sign (api_secret : String) (params : PyDict) : String :=
  hmacSha256Hex api_secret (urlencode params)

/-- `RECV_WINDOW`. -/
def RECV_WINDOW : ℤ := 5000

/-- The signed payload of `_request`: `{**params, **data,
"timestamp": ts, "recvWindow": 5000}` with the signature of that
mapping appended under `"signature"`. -/
def signedPayload (api_secret : String) (params data : PyDict) (ts : ℤ) : PyDict :=
  let payload :=
    dictSet (dictSet (dictMerge params data) "timestamp" (.i ts))
      "recvWindow" (.i RECV_WINDOW)
  dictSet payload "signature" (.s (sign api_secret payload))

/-- Where `_request` puts the parameters before dispatch: for a signed
request the whole payload becomes the query params for GET/DELETE and
the form body otherwise; `requests` then receives `None` in place of an
empty mapping, and the body is url-encoded. -/
def dispatch (method : String) (signed : Bool) (params data : PyDict)
    (api_secret : String) (ts : ℤ) : Option PyDict × Option String :=
  let pd :=
    if signed then
      let payload := signedPayload api_secret params data ts
      if pyUpper method = "GET" ∨ pyUpper method = "DELETE" then (payload, ([] : PyDict))
      else (([] : PyDict), payload)
    else (params, data)
  ((if pd.1 = [] then none else some pd.1),
   (if pd.2 = [] then none else some (urlencode pd.2)))

/-- First JSON value stored under a key of a JSON object. -/
def jLookup (m : List (String × JVal)) (k : String) : Option JVal :=
  match m with
  | [] => none
  | (k2, v) :: t => if k2 = k then some v else jLookup t k

/-- `body.get(k, dflt)`. -/
def jGet (m : List (String × JVal)) (k : String) (dflt : JVal) : JVal :=
  (jLookup m k).getD dflt

/-- Python `body["code"] < 0`: integer values compare; a `bool` is an
`int` subclass (`True = 1`, `False = 0`); comparing any other JSON
value against `0` raises `TypeError`. -/
def jLtZero : JVal → Except PyExc Bool
  | .int n => .ok (n < 0)
  | .bool _ => .ok false
  | _ => .error .typeError

/-- The response interpretation of `_request`, given the HTTP status,
the raw body text and the decoded JSON body (`none` when the body was
not JSON): negative-`code` mappings raise `BinanceAPIError` first, then
HTTP `>= 400` raises, then the decoded body is returned unchanged. -/
def interpretResponse (status : ℕ) (text : String) (body : Option JVal) :
    Except PyExc JVal :=
  match body with
  | none => if status ≥ 400 then .error (.httpError status) else .error .valueError
  | some b =>
    let negCode : Except PyExc Bool :=
      match b with
      | .obj m =>
        match jLookup m "code" with
        | some v => jLtZero v
        | none => .ok false
      | _ => .ok false
    match negCode with
    | .error e => .error e
    | .ok true =>
      match b with
      | .obj m =>
        .error (.binanceAPIError (jGet m "code" .null)
          (jGet m "msg" (.str "Unknown error")) status)
      | _ => .error .valueError
    | .ok false =>
      if status ≥ 400 then
        match b with
        | .obj m =>
          .error (.binanceAPIError (jGet m "code" (.int status))
            (jGet m "msg" (.str text)) status)
        | _ => .error (.httpError status)
      else .ok b

/-- The order parameter dict built by `BinanceClient.place_order`:
`timeInForce` and `price` are only attached when the order type is the
exact string `"LIMIT"`; `stopPrice` whenever a stop price is present. -/
def placeOrderData (symbol side order_type : String) (quantity : PyDec)
    (price stop_price : Option PyDec) (time_in_force : String) : PyDict :=
  let d0 : PyDict :=
    [("symbol", .s symbol), ("side", .s side), ("type", .s order_type),
     ("quantity", .s (pyDecStr quantity))]
  let d1 :=
    if order_type = "LIMIT" then
      let d := dictSet d0 "timeInForce" (.s time_in_force)
      match price with
      | some p => dictSet d "price" (.s (pyDecStr p))
      | none => d
    else d0
  match stop_price with
  | some sp => dictSet d1 "stopPrice" (.s (pyDecStr sp))
  | none => d1

/-- The signed request payload `BinanceClient.place_order` sends:
`_request("POST", "/api/v3/order", signed=True, data=...)`. -/
def placeOrderPayload (api_secret : String) (symbol side order_type : String)
    (quantity : PyDec) (price stop_price : Option PyDec)
    (time_in_force : String) (ts : ℤ) : PyDict :=
  signedPayload api_secret []
    (placeOrderData symbol side order_type quantity price stop_price time_in_force) ts

end BinanceClient

/-!
## `bot/orders.py` — order orchestration
-/

/-- `orders.OrderResult`. -/
structure OrderResult where
  success : Bool
  data : JVal
  error : Option String

/-- Python `str()` of a JSON value, as used when formatting exchange
error fields into messages (scalars exactly; containers best-effort). -/
def jvalStr : JVal → String
  | .str s => s
  | .int n => pyIntRepr n
  | .bool b => if b then "True" else "False"
  | .null => "None"
  | .arr _ => "[...]"
  | .obj _ => "{...}"

/-- `orders.place_order`: validates, then calls the client, translating
caught exceptions into `OrderResult`s.  The outcome of
`client.place_order` on the validated parameters is supplied as
`clientOutcome`.  The first `try` block catches only `ValidationError`,
so any other exception kind raised by `validate_all` propagates
(a `.error` result). -/
def Orders.place_order (clientOutcome : Except PyExc JVal)
    (symbol side order_type quantity : String)
    (price stop_price : Option String) : Except PyExc OrderResult :=
  match validate_all symbol side order_type quantity price stop_price with
  | .error (.validationError m) => .ok ⟨false, .obj [], some m⟩
  | .error e => .error e
  | .ok _ =>
    match clientOutcome with
    | .ok response => .ok ⟨true, response, none⟩
    | .error (.validationError m) => .ok ⟨false, .obj [], some m⟩
    | .error (.binanceAPIError code msg _) =>
      .ok ⟨false, .obj [],
        some ("Binance API Error [" ++ jvalStr code ++ "]: " ++ jvalStr msg)⟩
    | .error (.connectionError m) =>
      .ok ⟨false, .obj [], some ("Network Error: " ++ m)⟩
    | .error (.timeoutError m) =>
      .ok ⟨false, .obj [], some ("Network Error: " ++ m)⟩
    | .error .invalidOperation =>
      .ok ⟨false, .obj [], some "Unexpected error: InvalidOperation"⟩
    | .error .typeError =>
      .ok ⟨false, .obj [], some "Unexpected error: TypeError"⟩
    | .error .valueError =>
      .ok ⟨false, .obj [], some "Unexpected error: ValueError"⟩
    | .error (.httpError st) =>
      .ok ⟨false, .obj [], some ("Unexpected error: HTTPError " ++ pyIntRepr st)⟩
    | .error (.otherExc m) =>
      .ok ⟨false, .obj [], some ("Unexpected error: " ++ m)⟩

/-!
## Helper lemmas
-/

theorem toNat_ofNat_lt (m : ℕ) (h : m < 55296) : (Char.ofNat m).toNat = m := by
  have hv : Nat.isValidChar m := Or.inl h
  simp only [Char.ofNat, dif_pos hv, Char.ofNatAux, Char.toNat]
  rfl

theorem pyUpperChar_ne_newline (c : Char) (h : ¬ isPySpace c) : pyUpperChar c ≠ '\n' := by
  intro he
  unfold pyUpperChar at he
  split at he
  · rename_i hr
    obtain ⟨h1, h2⟩ := hr
    have hb1 : 97 ≤ c.toNat := h1
    have hb2 : c.toNat ≤ 122 := h2
    have ht := congrArg Char.toNat he
    rw [toNat_ofNat_lt (c.toNat - 32) (by omega)] at ht
    have h10 : ('\n').toNat = 10 := rfl
    rw [h10] at ht
    omega
  · subst he
    simp [isPySpace] at h

theorem head_dropWhile_false (p : Char → Bool) (l : List Char) (c : Char)
    (h : (l.dropWhile p).head? = some c) : p c = false := by
  induction l with
  | nil => simp [List.dropWhile] at h
  | cons x t ih =>
    by_cases hx : p x
    · rw [List.dropWhile_cons_of_pos hx] at h
      exact ih h
    · rw [List.dropWhile_cons_of_neg hx] at h
      simp at h
      subst h
      simpa using hx

theorem stripChars_getLast (l : List Char) (c : Char)
    (h : (stripChars l).getLast? = some c) : isPySpace c = false := by
  unfold stripChars at h
  rw [List.getLast?_reverse] at h
  exact head_dropWhile_false _ _ _ h

theorem getLast?_map (f : Char → Char) (l : List Char) :
    (l.map f).getLast? = l.getLast?.map f := by
  induction l with
  | nil => rfl
  | cons x t ih =>
    cases t with
    | nil => rfl
    | cons y u => simpa using ih

theorem symbolMatch_strip_upper (s : String) :
    symbolMatch (pyUpper (pyStrip s)) = symbolCore (pyUpper (pyStrip s)).data := by
  have hdata : (pyUpper (pyStrip s)).data = (stripChars s.data).map pyUpperChar := rfl
  have hlast : ((pyUpper (pyStrip s)).data.getLast? = some '\n') = False := by
    rw [hdata, getLast?_map]
    cases hc : (stripChars s.data).getLast? with
    | none => simp
    | some c0 =>
      have hsp := stripChars_getLast s.data c0 hc
      have : pyUpperChar c0 ≠ '\n' := pyUpperChar_ne_newline c0 (by simp [hsp])
      simp [this]
  simp [symbolMatch, hlast]

/-- The pattern `^[A-Z0-9]{3,20}$` of the claim, read as a predicate on
the whole string. -/
def specSymbolPattern (t : String) : Prop :=
  3 ≤ t.data.length ∧ t.data.length ≤ 20 ∧
    ∀ c ∈ t.data, ('A' ≤ c ∧ c ≤ 'Z') ∨ ('0' ≤ c ∧ c ≤ '9')

instance (t : String) : Decidable (specSymbolPattern t) := by
  unfold specSymbolPattern
  infer_instance

theorem symbolCore_iff_spec (t : String) :
    symbolCore t.data = true ↔ specSymbolPattern t := by
  simp [symbolCore, specSymbolPattern, List.all_eq_true, upperAlnum]

/-!
## Claims C1, C2, C3 — divergences of the code from the spec
-/

/-- Claim C1 (code bug): the claim states that for LIMIT and STOP_LIMIT
orders with a validated positive price present, the signed
order-placement payload contains a `price` parameter.  The code attaches
`price` only when the order type is exactly `"LIMIT"`, so for every
STOP_LIMIT order with a present price (and stop price) the signed
payload `place_order` builds carries no `price` field at all. -/
theorem claim_C1 (api_secret symbol side tif : String) (q p sp : PyDec) (ts : ℤ) :
    dictLookup
      (BinanceClient.placeOrderPayload api_secret symbol side "STOP_LIMIT"
        q (some p) (some sp) tif ts) "price" = none := rfl

/-- Claim C2 (code bug): the claim states that `validate_all` raises
only `ValidationError` for any string inputs, naming `"NaN"` among
them.  But `Decimal("NaN")` parses, and the subsequent `qty <= 0`
comparison raises `decimal.InvalidOperation`, which the validator does
not catch: the quantity `"NaN"` escapes `validate_all` with an
`InvalidOperation`, not a `ValidationError`. -/
theorem claim_C2 :
    validate_all "BTCUSDT" "BUY" "MARKET" "NaN" none none =
      .error .invalidOperation := rfl

/-- Claim C3 (code bug): the claim states `orders.place_order` always
returns an `OrderResult` and never propagates a raw exception.  The
first `try` block catches only `ValidationError`, so the
`decimal.InvalidOperation` raised by `validate_all` on quantity
`"NaN"` propagates raw across the boundary (for any client outcome;
`.ok (.obj [])` instantiates it). -/
theorem claim_C3 :
    Orders.place_order (.ok (.obj [])) "BTCUSDT" "BUY" "MARKET" "NaN" none none =
      .error .invalidOperation := rfl

/-!
## Claims C6, C7, C9, C10
-/

/-- Claim C6: a JSON mapping body with a negative numeric `code` field
makes `_request` raise a `BinanceAPIError` carrying exactly that code,
the body's `msg` (defaulting to `"Unknown error"`), and the HTTP
status, whatever the status is. -/
theorem claim_C6 (status : ℕ) (text : String) (m : List (String × JVal)) (c : ℤ)
    (hc : BinanceClient.jLookup m "code" = some (.int c)) (hneg : c < 0) :
    BinanceClient.interpretResponse status text (some (.obj m)) =
      .error (.binanceAPIError (.int c)
        (BinanceClient.jGet m "msg" (.str "Unknown error")) status) := by
  simp [BinanceClient.interpretResponse, hc, BinanceClient.jLtZero, hneg,
    BinanceClient.jGet]

/-- Witness for C6, at the spec's own example: body
`{"code": -1121, "msg": "Invalid symbol."}` with HTTP 400 surfaces as a
`BinanceAPIError` with code `-1121`, that message, and status 400. -/
theorem claim_C6_witness :
    BinanceClient.interpretResponse 400 ""
        (some (.obj [("code", .int (-1121)), ("msg", .str "Invalid symbol.")])) =
      .error (.binanceAPIError (.int (-1121)) (.str "Invalid symbol.") 400) :=
  claim_C6 400 "" [("code", .int (-1121)), ("msg", .str "Invalid symbol.")]
    (-1121) rfl (by norm_num)

/-- Claim C7: with an absent price, `validate_price` fails with the
price-required error exactly when the (normalized) order type is LIMIT
or STOP_LIMIT, and returns `none` for MARKET and STOP_MARKET; with an
absent stop price, `validate_stop_price` fails with the
stop-price-required error exactly when the type is STOP_MARKET or
STOP_LIMIT, and returns `none` otherwise. -/
theorem claim_C7 (ot : String) :
    ((validate_price none ot =
        .error (.validationError
          ("Price is required for " ++ pyUpper (pyStrip ot) ++ " orders."))) ↔
      (pyUpper (pyStrip ot) = "LIMIT" ∨ pyUpper (pyStrip ot) = "STOP_LIMIT")) ∧
    ((pyUpper (pyStrip ot) = "MARKET" ∨ pyUpper (pyStrip ot) = "STOP_MARKET") →
      validate_price none ot = .ok none) ∧
    ((validate_stop_price none ot =
        .error (.validationError
          ("Stop price (--stop-price) is required for " ++
            pyUpper (pyStrip ot) ++ " orders."))) ↔
      (pyUpper (pyStrip ot) = "STOP_MARKET" ∨ pyUpper (pyStrip ot) = "STOP_LIMIT")) ∧
    (¬ (pyUpper (pyStrip ot) = "STOP_MARKET" ∨ pyUpper (pyStrip ot) = "STOP_LIMIT") →
      validate_stop_price none ot = .ok none) := by
  refine ⟨?_, ?_, ?_, ?_⟩
  · by_cases h : pyUpper (pyStrip ot) = "LIMIT" ∨ pyUpper (pyStrip ot) = "STOP_LIMIT"
    · simp [validate_price, priceBlank, h]
    · simp [validate_price, priceBlank, h]
  · intro h
    have hne : ¬ (pyUpper (pyStrip ot) = "LIMIT" ∨ pyUpper (pyStrip ot) = "STOP_LIMIT") := by
      rcases h with h | h <;> rw [h] <;> decide
    simp [validate_price, priceBlank, hne]
  · by_cases h : pyUpper (pyStrip ot) = "STOP_MARKET" ∨ pyUpper (pyStrip ot) = "STOP_LIMIT"
    · simp [validate_stop_price, priceBlank, h]
    · simp [validate_stop_price, priceBlank, h]
  · intro h
    simp [validate_stop_price, priceBlank, h]

/-- Witness for C7, at the four canonical order types. -/
theorem claim_C7_witness :
    validate_price none "LIMIT" =
      .error (.validationError "Price is required for LIMIT orders.") ∧
    validate_price none "MARKET" = .ok none ∧
    validate_stop_price none "STOP_MARKET" =
      .error (.validationError
        "Stop price (--stop-price) is required for STOP_MARKET orders.") ∧
    validate_stop_price none "LIMIT" = .ok none :=
  ⟨(claim_C7 "LIMIT").1.mpr (by decide),
   (claim_C7 "MARKET").2.1 (by decide),
   (claim_C7 "STOP_MARKET").2.2.1.mpr (by decide),
   (claim_C7 "LIMIT").2.2.2 (by decide)⟩

/-- Claim C9: `validate_symbol` succeeds exactly on inputs whose
trimmed, upper-cased form matches `^[A-Z0-9]{3,20}$`, returning that
form, and raises a `ValidationError` on every other input. -/
theorem claim_C9 (s : String) :
    (specSymbolPattern (pyUpper (pyStrip s)) →
      validate_symbol s = .ok (pyUpper (pyStrip s))) ∧
    (¬ specSymbolPattern (pyUpper (pyStrip s)) →
      validate_symbol s = .error (.validationError
        ("Invalid symbol \x27" ++ s ++
         "\x27. Expected uppercase alphanumeric (e.g. BTCUSDT)."))) := by
  have hm := symbolMatch_strip_upper s
  have hiff := symbolCore_iff_spec (pyUpper (pyStrip s))
  constructor
  · intro hs
    have : symbolMatch (pyUpper (pyStrip s)) = true := by
      rw [hm]; exact hiff.mpr hs
    simp [validate_symbol, this]
  · intro hs
    have : symbolMatch (pyUpper (pyStrip s)) = false := by
      rw [hm]
      by_contra hcon
      simp at hcon
      exact hs (hiff.mp hcon)
    simp [validate_symbol, this]

/-- Witness for C9: `"  btcusdt "` trims and upper-cases to a matching
symbol and is accepted in that form; `"x"` does not match and is
rejected. -/
theorem claim_C9_witness :
    validate_symbol "  btcusdt " = .ok "BTCUSDT" ∧
    validate_symbol "x" = .error (.validationError
      "Invalid symbol \x27x\x27. Expected uppercase alphanumeric (e.g. BTCUSDT).") :=
  ⟨(claim_C9 "  btcusdt ").1 (by decide), (claim_C9 "x").2 (by decide)⟩

/-- Claim C10: a whitespace-only (or empty) price or stop-price string
is treated exactly like an absent one by `validate_price` and
`validate_stop_price`: the results coincide with the `None` case for
every order type, so such a string is never parsed as a decimal. -/
theorem claim_C10 (s ot : String) (h : pyStrip s = "") :
    validate_price (some s) ot = validate_price none ot ∧
    validate_stop_price (some s) ot = validate_stop_price none ot := by
  have hb : priceBlank (some s) = true := by simp [priceBlank, h]
  constructor
  · by_cases hn : (pyUpper (pyStrip ot) = "LIMIT" ∨ pyUpper (pyStrip ot) = "STOP_LIMIT")
    · simp [validate_price, priceBlank, hb, hn, h]
    · simp [validate_price, priceBlank, hb, hn, h]
  · by_cases hn : (pyUpper (pyStrip ot) = "STOP_MARKET" ∨ pyUpper (pyStrip ot) = "STOP_LIMIT")
    · simp [validate_stop_price, priceBlank, hb, hn, h]
    · simp [validate_stop_price, priceBlank, hb, hn, h]

/-- Witness for C10, at a three-space string and type LIMIT: both
validators treat it as absent. -/
theorem claim_C10_witness :
    validate_price (some "   ") "LIMIT" = validate_price none "LIMIT" ∧
    validate_stop_price (some "   ") "LIMIT" = validate_stop_price none "LIMIT" :=
  claim_C10 "   " "LIMIT" rfl

/-!
## Claim C5 — where the signed mapping travels
-/

theorem dictSet_ne_nil (d : PyDict) (k : String) (v : PValue) : dictSet d k v ≠ [] := by
  cases d with
  | nil => simp [dictSet]
  | cons x t =>
    simp only [dictSet]
    split <;> simp

theorem signedPayload_ne_nil (api_secret : String) (params data : PyDict) (ts : ℤ) :
    BinanceClient.signedPayload api_secret params data ts ≠ [] := by
  unfold BinanceClient.signedPayload
  exact dictSet_ne_nil _ _ _

/-- Claim C5: for a signed request with (upper-cased) method GET or
DELETE the complete signed mapping is dispatched as the query
parameters with an empty (absent) body; for every other method it is
dispatched as the form-encoded body with no query parameters. -/
theorem claim_C5 (method api_secret : String) (params data : PyDict) (ts : ℤ) :
    ((pyUpper method = "GET" ∨ pyUpper method = "DELETE") →
      BinanceClient.dispatch method true params data api_secret ts =
        (some (BinanceClient.signedPayload api_secret params data ts), none)) ∧
    (pyUpper method ≠ "GET" → pyUpper method ≠ "DELETE" →
      BinanceClient.dispatch method true params data api_secret ts =
        (none, some (urlencode (BinanceClient.signedPayload api_secret params data ts)))) := by
  have hne := signedPayload_ne_nil api_secret params data ts
  constructor
  · intro h
    simp [BinanceClient.dispatch, h, hne]
  · intro h1 h2
    have h : ¬ (pyUpper method = "GET" ∨ pyUpper method = "DELETE") := by
      simp [h1, h2]
    simp [BinanceClient.dispatch, h, hne]

/-- Witness for C5 at methods `"GET"` and `"POST"` with one query
parameter. -/
theorem claim_C5_witness :
    BinanceClient.dispatch "GET" true [("symbol", .s "BTCUSDT")] [] "k" 1700000000000 =
      (some (BinanceClient.signedPayload "k" [("symbol", .s "BTCUSDT")] [] 1700000000000),
       none) ∧
    BinanceClient.dispatch "POST" true [] [("symbol", .s "BTCUSDT")] "k" 1700000000000 =
      (none,
       some (urlencode
         (BinanceClient.signedPayload "k" [] [("symbol", .s "BTCUSDT")] 1700000000000))) :=
  ⟨(claim_C5 "GET" "k" [("symbol", .s "BTCUSDT")] [] 1700000000000).1 (by decide),
   (claim_C5 "POST" "k" [] [("symbol", .s "BTCUSDT")] 1700000000000).2
     (by decide) (by decide)⟩

/-!
## Claim C4 — shape and encoding of the signed payload
-/

theorem dictSet_append (l : PyDict) (k : String) (v : PValue)
    (h : k ∉ l.map Prod.fst) : dictSet l k v = l ++ [(k, v)] := by
  induction l with
  | nil => rfl
  | cons x t ih =>
    cases x with
    | mk k2 v2 =>
      simp only [List.map_cons, List.mem_cons] at h
      push_neg at h
      simp only [dictSet]
      rw [if_neg (fun he => h.1 he.symm)]
      simp [ih h.2]

theorem dictMerge_append (a b : PyDict)
    (hd : ∀ k ∈ b.map Prod.fst, k ∉ a.map Prod.fst)
    (hb : (b.map Prod.fst).Nodup) : dictMerge a b = a ++ b := by
  induction b generalizing a with
  | nil => simp [dictMerge]
  | cons x t ih =>
    cases x with
    | mk k v =>
      have hka : k ∉ a.map Prod.fst := hd k (by simp)
      have step : dictMerge a ((k, v) :: t) = dictMerge (a ++ [(k, v)]) t := by
        simp [dictMerge, dictSet_append a k v hka]
      simp only [List.map_cons, List.nodup_cons] at hb
      rw [step, ih (a ++ [(k, v)])]
      · simp
      · intro k2 hk2
        simp only [List.map_append, List.mem_append] at *
        push_neg
        refine ⟨hd k2 (by simp [hk2]), ?_⟩
        simp only [List.map_cons, List.map_nil, List.mem_singleton]
        intro he
        exact hb.1 (he ▸ hk2)
      · exact hb.2

theorem joinAmp_append_single (l : List String) (x : String) (h : l ≠ []) :
    joinAmp (l ++ [x]) = joinAmp l ++ "&" ++ x := by
  induction l with
  | nil => exact absurd rfl h
  | cons y t ih =>
    cases t with
    | nil => rfl
    | cons z u =>
      have hzu : z :: u ≠ [] := by simp
      show joinAmp (y :: (z :: u ++ [x])) = joinAmp (y :: z :: u) ++ "&" ++ x
      have hy : joinAmp (y :: (z :: u ++ [x])) = y ++ "&" ++ joinAmp (z :: u ++ [x]) := by
        cases u <;> rfl
      rw [hy, ih hzu]
      show y ++ "&" ++ (joinAmp (z :: u) ++ "&" ++ x) =
        (y ++ "&" ++ joinAmp (z :: u)) ++ "&" ++ x
      simp [String.append_assoc]

theorem urlencode_append_single (l : PyDict) (kv : String × PValue) (h : l ≠ []) :
    urlencode (l ++ [kv]) = urlencode l ++ "&" ++ encodePair kv := by
  unfold urlencode
  rw [List.map_append]
  exact joinAmp_append_single _ _ (by simpa using h)

theorem flatMap_quote_safe (l : List Char)
    (h : ∀ c ∈ l, urlSafeByte c.toNat = true) :
    (l.flatMap utf8Bytes).flatMap quotePlusByte = l := by
  induction l with
  | nil => rfl
  | cons c t ih =>
    have hc := h c (by simp)
    have hb : (65 ≤ c.toNat ∧ c.toNat ≤ 90) ∨ (97 ≤ c.toNat ∧ c.toNat ≤ 122) ∨
        (48 ≤ c.toNat ∧ c.toNat ≤ 57) ∨ c.toNat = 95 ∨ c.toNat = 46 ∨
        c.toNat = 45 ∨ c.toNat = 126 := by
      simpa [urlSafeByte] using hc
    have hlt : c.toNat < 128 := by omega
    have h32 : ¬ c.toNat = 32 := by omega
    have hu : utf8Bytes c = [c.toNat] := by simp [utf8Bytes, hlt]
    have hq : quotePlusByte c.toNat = [Char.ofNat c.toNat] := by
      simp [quotePlusByte, h32, hc]
    simp only [List.flatMap_cons, hu, List.flatMap_append, List.flatMap_cons,
      List.flatMap_nil, hq, List.append_nil, List.nil_append, List.singleton_append]
    rw [Char.ofNat_toNat, ih (fun d hd => h d (by simp [hd]))]

theorem quotePlus_of_safe (s : String) (h : ∀ c ∈ s.data, urlSafeByte c.toNat = true) :
    quotePlus s = s := by
  show (⟨((s.data.flatMap utf8Bytes).flatMap quotePlusByte : List Char)⟩ : String) = s
  rw [flatMap_quote_safe s.data h]

theorem digitChar_toNat (m : ℕ) (h : m < 10) : (digitChar m).toNat = 48 + m :=
  toNat_ofNat_lt _ (by omega)

theorem natRepr_safe (n : ℕ) : ∀ c ∈ natRepr n, urlSafeByte c.toNat = true := by
  induction n using Nat.strong_induction_on with
  | _ n ih =>
    rw [natRepr_eq]
    split
    · rename_i h
      intro c hc
      simp only [List.mem_singleton] at hc
      subst hc
      rw [digitChar_toNat n h]
      simp [urlSafeByte]
      omega
    · rename_i h
      intro c hc
      simp only [List.mem_append, List.mem_singleton] at hc
      rcases hc with hc | hc
      · exact ih (n / 10) (Nat.div_lt_self (by omega) (by omega)) c hc
      · subst hc
        rw [digitChar_toNat (n % 10) (Nat.mod_lt _ (by omega))]
        simp [urlSafeByte]
        omega

theorem pyIntRepr_safe (n : ℤ) : ∀ c ∈ (pyIntRepr n).data, urlSafeByte c.toNat = true := by
  intro c hc
  unfold pyIntRepr at hc
  simp only [List.mem_append] at hc
  rcases hc with hc | hc
  · split at hc
    · simp only [List.mem_singleton] at hc
      subst hc
      decide
    · simp at hc
  · exact natRepr_safe n.natAbs c hc

theorem hexLowerChar_mem (m : ℕ) (h : m < 16) :
    hexLowerChar m ∈ ("0123456789abcdef").data := by
  interval_cases m <;> decide

theorem hexChars_mem (l : List ℕ) (c : Char) (h : c ∈ hexChars l) :
    c ∈ ("0123456789abcdef").data := by
  induction l with
  | nil => simp [hexChars] at h
  | cons b t ih =>
    simp only [hexChars, List.mem_cons] at h
    rcases h with h | h | h
    · exact h ▸ hexLowerChar_mem _ (Nat.mod_lt _ (by omega))
    · exact h ▸ hexLowerChar_mem _ (Nat.mod_lt _ (by omega))
    · exact ih h

theorem hex_mem_safe (c : Char) (h : c ∈ ("0123456789abcdef").data) :
    urlSafeByte c.toNat = true := by
  fin_cases h <;> decide

theorem hexChars_length (l : List ℕ) : (hexChars l).length = 2 * l.length := by
  induction l with
  | nil => rfl
  | cons b t ih => simp [hexChars, ih]; omega

theorem sha256_length (m : List ℕ) : (sha256 m).length = 32 := rfl

theorem hmacSha256Hex_data (k m : String) :
    (hmacSha256Hex k m).data = hexChars (hmacSha256 (strBytes k) (strBytes m)) := rfl

theorem hmacSha256Hex_length (k m : String) : (hmacSha256Hex k m).length = 64 := by
  show (hmacSha256Hex k m).data.length = 64
  rw [hmacSha256Hex_data, hexChars_length]
  show 2 * (sha256 _).length = 64
  rw [sha256_length]

theorem hmacSha256Hex_hex (k m : String) :
    ∀ c ∈ (hmacSha256Hex k m).data, c ∈ ("0123456789abcdef").data := by
  intro c hc
  rw [hmacSha256Hex_data] at hc
  exact hexChars_mem _ c hc

theorem hmacSha256Hex_safe (k m : String) :
    ∀ c ∈ (hmacSha256Hex k m).data, urlSafeByte c.toNat = true :=
  fun c hc => hex_mem_safe c (hmacSha256Hex_hex k m c hc)

theorem sign_safe (api_secret : String) (d : PyDict) :
    ∀ c ∈ (BinanceClient.sign api_secret d).data, urlSafeByte c.toNat = true :=
  hmacSha256Hex_safe api_secret (urlencode d)

theorem sign_length (api_secret : String) (d : PyDict) :
    (BinanceClient.sign api_secret d).length = 64 :=
  hmacSha256Hex_length api_secret (urlencode d)

theorem sign_hex (api_secret : String) (d : PyDict) :
    ∀ c ∈ (BinanceClient.sign api_secret d).data, c ∈ ("0123456789abcdef").data :=
  hmacSha256Hex_hex api_secret (urlencode d)

/-- Claim C4: for fresh parameter keys, the signed payload is the query
params, then the body params, then `timestamp`, then `recvWindow` (value
5000), with the signature — the hex HMAC-SHA256, keyed by the API
secret, of the URL-encoded form of exactly those fields — appended as
the last key; the encoded signed mapping therefore ends in
`&timestamp=<ms>&recvWindow=5000&signature=<sig>`, where `<sig>` has 64
lowercase-hex characters. -/
theorem claim_C4 (api_secret : String) (params data : PyDict) (ts : ℤ)
    (hnodup : (data.map Prod.fst).Nodup)
    (hdisj : ∀ k ∈ data.map Prod.fst, k ∉ params.map Prod.fst)
    (hts : "timestamp" ∉ (params ++ data).map Prod.fst)
    (hrw : "recvWindow" ∉ (params ++ data).map Prod.fst)
    (hsig : "signature" ∉ (params ++ data).map Prod.fst)
    (hne : params ++ data ≠ []) :
    BinanceClient.signedPayload api_secret params data ts =
      params ++ data ++
        [("timestamp", PValue.i ts), ("recvWindow", PValue.i 5000),
         ("signature", PValue.s (BinanceClient.sign api_secret
           (params ++ data ++
             [("timestamp", PValue.i ts), ("recvWindow", PValue.i 5000)])))] ∧
    urlencode (BinanceClient.signedPayload api_secret params data ts) =
      urlencode (params ++ data) ++ "&" ++ "timestamp=" ++ pyIntRepr ts ++ "&" ++
        "recvWindow=5000" ++ "&" ++ "signature=" ++
        BinanceClient.sign api_secret
          (params ++ data ++
            [("timestamp", PValue.i ts), ("recvWindow", PValue.i 5000)]) ∧
    (BinanceClient.sign api_secret
      (params ++ data ++
        [("timestamp", PValue.i ts), ("recvWindow", PValue.i 5000)])).length = 64 ∧
    ∀ c ∈ (BinanceClient.sign api_secret
        (params ++ data ++
          [("timestamp", PValue.i ts), ("recvWindow", PValue.i 5000)])).data,
      c ∈ ("0123456789abcdef").data := by
  have h1 : dictMerge params data = params ++ data := dictMerge_append _ _ hdisj hnodup
  have h2 : dictSet (params ++ data) "timestamp" (.i ts) =
      (params ++ data) ++ [("timestamp", PValue.i ts)] :=
    dictSet_append _ _ _ hts
  have h3 : dictSet ((params ++ data) ++ [("timestamp", PValue.i ts)])
      "recvWindow" (.i 5000) =
      ((params ++ data) ++ [("timestamp", PValue.i ts)]) ++
        [("recvWindow", PValue.i 5000)] := by
    refine dictSet_append _ _ _ ?_
    simp only [List.map_append, List.map_cons, List.map_nil, List.mem_append]
    rintro (hin | hin)
    · exact hrw (by simpa using hin)
    · simp only [List.mem_singleton] at hin
      exact absurd hin (by decide)
  have hpre : dictSet (dictSet (dictMerge params data) "timestamp" (.i ts))
      "recvWindow" (.i BinanceClient.RECV_WINDOW) =
      params ++ data ++
        [("timestamp", PValue.i ts), ("recvWindow", PValue.i 5000)] := by
    show dictSet (dictSet (dictMerge params data) "timestamp" (.i ts))
      "recvWindow" (.i 5000) = _
    rw [h1, h2, h3]
    simp
  have hpay : BinanceClient.signedPayload api_secret params data ts =
      (params ++ data ++
        [("timestamp", PValue.i ts), ("recvWindow", PValue.i 5000)]) ++
      [("signature", PValue.s (BinanceClient.sign api_secret
        (params ++ data ++
          [("timestamp", PValue.i ts), ("recvWindow", PValue.i 5000)])))] := by
    unfold BinanceClient.signedPayload
    rw [hpre]
    refine dictSet_append _ _ _ ?_
    simp only [List.map_append, List.map_cons, List.map_nil, List.mem_append]
    rintro (hin | hin)
    · exact hsig (by simpa using hin)
    · simp only [List.mem_cons, List.mem_singleton, List.not_mem_nil, or_false] at hin
      rcases hin with hin | hin <;> exact absurd hin (by decide)
  refine ⟨?_, ?_, sign_length _ _, sign_hex _ _⟩
  · rw [hpay]
    simp
  · rw [hpay]
    have hA : params ++ data ++
        [("timestamp", PValue.i ts), ("recvWindow", PValue.i 5000)] =
        (((params ++ data) ++ [("timestamp", PValue.i ts)]) ++
          [("recvWindow", PValue.i 5000)]) := by simp
    have et : encodePair ("timestamp", PValue.i ts) = "timestamp=" ++ pyIntRepr ts := by
      show quotePlus "timestamp" ++ "=" ++ quotePlus (pyIntRepr ts) = _
      rw [quotePlus_of_safe _ (pyIntRepr_safe ts)]
      rfl
    have er : encodePair ("recvWindow", PValue.i 5000) = "recvWindow=5000" := rfl
    have es : encodePair ("signature", PValue.s (BinanceClient.sign api_secret
        (params ++ data ++
          [("timestamp", PValue.i ts), ("recvWindow", PValue.i 5000)]))) =
        "signature=" ++ BinanceClient.sign api_secret
          (params ++ data ++
            [("timestamp", PValue.i ts), ("recvWindow", PValue.i 5000)]) := by
      show quotePlus "signature" ++ "=" ++
          quotePlus (BinanceClient.sign api_secret
            (params ++ data ++
              [("timestamp", PValue.i ts), ("recvWindow", PValue.i 5000)])) = _
      rw [quotePlus_of_safe _ (sign_safe api_secret _)]
      rfl
    rw [hA, urlencode_append_single _ _ (by simp),
      urlencode_append_single _ _ (by simp),
      urlencode_append_single _ _ hne, et, er, ← hA, es]
    simp only [String.append_assoc]

/-- Witness for C4, at a signed GET with params `{symbol: "BTCUSDT"}`:
the payload is `symbol`, `timestamp`, `recvWindow`, `signature` in
insertion order, and the signature value has 64 characters. -/
theorem claim_C4_witness :
    BinanceClient.signedPayload "k" [("symbol", PValue.s "BTCUSDT")] [] 1700000000000 =
      [("symbol", PValue.s "BTCUSDT"), ("timestamp", PValue.i 1700000000000),
       ("recvWindow", PValue.i 5000),
       ("signature", PValue.s (BinanceClient.sign "k"
         [("symbol", PValue.s "BTCUSDT"), ("timestamp", PValue.i 1700000000000),
          ("recvWindow", PValue.i 5000)]))] ∧
    (BinanceClient.sign "k"
      [("symbol", PValue.s "BTCUSDT"), ("timestamp", PValue.i 1700000000000),
       ("recvWindow", PValue.i 5000)]).length = 64 :=
  have h := claim_C4 "k" [("symbol", PValue.s "BTCUSDT")] [] 1700000000000
    (by simp) (by simp) (by decide) (by decide) (by decide) (by decide)
  ⟨h.1, h.2.2.1⟩

/-!
## Claim C8 — exact decimal round-trip

Spec side: a string denotes a valid decimal number exactly when it is a
plain decimal literal — optional sign, integer digits, optional point
and fraction digits — and such a literal denotes the rational
`±(int + frac/10^|frac|)`.  `renderDec` enumerates exactly these
strings; `specDecValue` is that denotation, defined independently of
the `Decimal` model (which stores a coefficient and an exponent).
-/

/-- The characters of an optional sign (`some true` is `-`,
`some false` is `+`). -/
def signChars : Option Bool → List Char
  | none => []
  | some false => ['+']
  | some true => ['-']

/-- The decimal literal with the given components: optional sign,
integer digits, and — when `point` — a decimal point followed by the
fraction digits. -/
def renderDec (sgn : Option Bool) (ip fp : List Char) (point : Bool) : String :=
  ⟨signChars sgn ++ ip ++ (if point then '.' :: fp else [])⟩

/-- The sign bit of an optional sign. -/
def signBit : Option Bool → Bool
  | some true => true
  | _ => false

/-- The exact rational a decimal literal denotes (spec side). -/
def specDecValue (sgn : Option Bool) (ip fp : List Char) : ℚ :=
  (if signBit sgn then -1 else 1) *
    ((digitsVal ip : ℚ) + (digitsVal fp : ℚ) / 10 ^ fp.length)

theorem foldl_digitsVal (l : List Char) (n : ℕ) :
    l.foldl (fun a c => 10 * a + digitVal c) n = n * 10 ^ l.length + digitsVal l := by
  induction l generalizing n with
  | nil => simp [digitsVal]
  | cons c t ih =>
    show t.foldl _ (10 * n + digitVal c) = _
    rw [ih]
    have hd : digitsVal (c :: t) = t.foldl (fun a c => 10 * a + digitVal c) (digitVal c) := by
      show t.foldl _ (10 * 0 + digitVal c) = _
      norm_num
    rw [hd, ih]
    simp [List.length_cons]
    ring

theorem digitsVal_append (a b : List Char) :
    digitsVal (a ++ b) = digitsVal a * 10 ^ b.length + digitsVal b := by
  show (a ++ b).foldl _ 0 = _
  rw [List.foldl_append]
  exact foldl_digitsVal b (digitsVal a)

theorem spanDigits_of_split (d r : List Char) (hd : ∀ c ∈ d, c.isDigit = true)
    (hr : ∀ c, r.head? = some c → c.isDigit = false) :
    spanDigits (d ++ r) = (d, r) := by
  induction d with
  | nil =>
    cases r with
    | nil => rfl
    | cons c t =>
      have hc := hr c rfl
      simp [spanDigits, hc]
  | cons c d2 ih =>
    have hc := hd c (by simp)
    simp [spanDigits, hc, ih (fun x hx => hd x (by simp [hx]))]

theorem dropWhile_eq_self_all (p : Char → Bool) (l : List Char)
    (h : ∀ c ∈ l, p c = false) : l.dropWhile p = l := by
  cases l with
  | nil => rfl
  | cons c t => simp [List.dropWhile_cons, h c (by simp)]

theorem stripChars_eq_self (l : List Char) (h : ∀ c ∈ l, isPySpace c = false) :
    stripChars l = l := by
  unfold stripChars
  rw [dropWhile_eq_self_all _ _ h,
    dropWhile_eq_self_all _ _ (fun c hc => h c (by simpa using hc)),
    List.reverse_reverse]

theorem map_eq_self (f : Char → Char) (l : List Char) (h : ∀ c ∈ l, f c = c) :
    l.map f = l := by
  induction l with
  | nil => rfl
  | cons c t ih => simp [h c (by simp), ih (fun x hx => h x (by simp [hx]))]

theorem char_ne_of_toNat (c d : Char) (h : c.toNat ≠ d.toNat) : c ≠ d :=
  fun he => h (he ▸ rfl)

theorem isDigit_bounds (c : Char) (h : c.isDigit = true) :
    48 ≤ c.toNat ∧ c.toNat ≤ 57 := by
  simp only [Char.isDigit, Bool.and_eq_true, decide_eq_true_eq] at h
  exact ⟨h.1, h.2⟩

theorem isPySpace_false_of_bounds (c : Char) (h1 : 43 ≤ c.toNat) (h2 : c.toNat ≤ 57) :
    isPySpace c = false := by
  have e1 : c ≠ ' ' := char_ne_of_toNat c ' '
    (by rw [show (' ').toNat = 32 from rfl]; omega)
  have e2 : c ≠ '\t' := char_ne_of_toNat c '\t'
    (by rw [show ('\t').toNat = 9 from rfl]; omega)
  have e3 : c ≠ '\n' := char_ne_of_toNat c '\n'
    (by rw [show ('\n').toNat = 10 from rfl]; omega)
  have e4 : c ≠ '\x0b' := char_ne_of_toNat c '\x0b'
    (by rw [show ('\x0b').toNat = 11 from rfl]; omega)
  have e5 : c ≠ '\x0c' := char_ne_of_toNat c '\x0c'
    (by rw [show ('\x0c').toNat = 12 from rfl]; omega)
  have e6 : c ≠ '\r' := char_ne_of_toNat c '\r'
    (by rw [show ('\r').toNat = 13 from rfl]; omega)
  simp [isPySpace, e1, e2, e3, e4, e5, e6]

theorem pyLowerChar_id_of_bounds (c : Char) (h : c.toNat ≤ 57) : pyLowerChar c = c := by
  unfold pyLowerChar
  rw [if_neg]
  rintro ⟨h1, _⟩
  have : 65 ≤ c.toNat := h1
  omega

theorem mem_pointPart (c : Char) (fp : List Char) (point : Bool)
    (hfp : ∀ c ∈ fp, c.isDigit = true)
    (hc : c ∈ (if point then '.' :: fp else [])) :
    43 ≤ c.toNat ∧ c.toNat ≤ 57 := by
  cases point with
  | false =>
    rw [if_neg Bool.false_ne_true] at hc
    simp at hc
  | true =>
    rw [if_pos rfl] at hc
    simp only [List.mem_cons] at hc
    rcases hc with hc | hc
    · subst hc; decide
    · have := isDigit_bounds c (hfp c hc)
      omega

theorem renderDec_chars (sgn : Option Bool) (ip fp : List Char) (point : Bool)
    (hip : ∀ c ∈ ip, c.isDigit = true) (hfp : ∀ c ∈ fp, c.isDigit = true) :
    ∀ c ∈ (renderDec sgn ip fp point).data, 43 ≤ c.toNat ∧ c.toNat ≤ 57 := by
  intro c hc
  rcases sgn with _ | b
  · have hc2 : c ∈ [] ++ ip ++ (if point then '.' :: fp else []) := hc
    simp only [List.nil_append, List.mem_append] at hc2
    rcases hc2 with hc2 | hc2
    · have := isDigit_bounds c (hip c hc2)
      omega
    · exact mem_pointPart c fp point hfp hc2
  · rcases b
    · have hc2 : c ∈ ['+'] ++ ip ++ (if point then '.' :: fp else []) := hc
      simp only [List.singleton_append, List.mem_cons, List.mem_append] at hc2
      rcases hc2 with (hc2 | hc2) | hc2
      · subst hc2; decide
      · have := isDigit_bounds c (hip c hc2)
        omega
      · exact mem_pointPart c fp point hfp hc2
    · have hc2 : c ∈ ['-'] ++ ip ++ (if point then '.' :: fp else []) := hc
      simp only [List.singleton_append, List.mem_cons, List.mem_append] at hc2
      rcases hc2 with (hc2 | hc2) | hc2
      · subst hc2; decide
      · have := isDigit_bounds c (hip c hc2)
        omega
      · exact mem_pointPart c fp point hfp hc2

theorem clean_of_bounds (l : List Char)
    (h : ∀ c ∈ l, 43 ≤ c.toNat ∧ c.toNat ≤ 57) :
    ((stripChars l).filter (fun c => c ≠ '_')).map pyLowerChar = l := by
  rw [stripChars_eq_self l
    (fun c hc => isPySpace_false_of_bounds c (h c hc).1 (h c hc).2)]
  have hf : l.filter (fun c => c ≠ '_') = l := by
    induction l with
    | nil => rfl
    | cons c t ih =>
      have hc : c ≠ '_' := char_ne_of_toNat c '_'
        (by rw [show ('_').toNat = 95 from rfl]
            have := h c (by simp)
            omega)
      have ht := ih (fun x hx => h x (by simp [hx]))
      simp only [List.filter_cons]
      have hdec : (decide (c ≠ '_')) = true := by simp [hc]
      rw [hdec, if_pos rfl, ht]
  rw [hf, map_eq_self _ _ (fun c hc => pyLowerChar_id_of_bounds c (h c hc).2)]

theorem splitSign_sign (sgn : Option Bool) (rest : List Char)
    (hno : ∀ c, rest.head? = some c → c ≠ '+' ∧ c ≠ '-') :
    splitSign (signChars sgn ++ rest) = (signBit sgn, rest) := by
  rcases sgn with _ | b
  · cases rest with
    | nil => rfl
    | cons c t =>
      obtain ⟨h1, h2⟩ := hno c rfl
      simp [signChars, splitSign, signBit, h1, h2]
  · rcases b <;> simp [signChars, splitSign, signBit]

theorem restForm_head (ip fp : List Char) (point : Bool)
    (hip : ∀ c ∈ ip, c.isDigit = true)
    (hne : ¬(ip = [] ∧ fp = [])) (hpt : point = false → fp = []) :
    ∃ c0 t0, ip ++ (if point then '.' :: fp else []) = c0 :: t0 ∧
      46 ≤ c0.toNat ∧ c0.toNat ≤ 57 := by
  cases ip with
  | cons c t =>
    refine ⟨c, t ++ (if point then '.' :: fp else []), by simp, ?_⟩
    have := isDigit_bounds c (hip c (by simp))
    omega
  | nil =>
    have hfp : fp ≠ [] := fun h => hne ⟨rfl, h⟩
    cases point with
    | false => exact absurd (hpt rfl) hfp
    | true => exact ⟨'.', fp, by simp, by decide, by decide⟩

theorem not_inf_nan (c0 : Char) (t0 : List Char)
    (h1 : 46 ≤ c0.toNat) (h2 : c0.toNat ≤ 57) :
    ¬(c0 :: t0 = ['i', 'n', 'f'] ∨ c0 :: t0 = ['i', 'n', 'f', 'i', 'n', 'i', 't', 'y']) ∧
      isNanForm (c0 :: t0) = false := by
  have hi : c0 ≠ 'i' := char_ne_of_toNat c0 'i'
    (by rw [show ('i').toNat = 105 from rfl]; omega)
  have hn : c0 ≠ 'n' := char_ne_of_toNat c0 'n'
    (by rw [show ('n').toNat = 110 from rfl]; omega)
  have hs : c0 ≠ 's' := char_ne_of_toNat c0 's'
    (by rw [show ('s').toNat = 115 from rfl]; omega)
  constructor
  · rintro (h | h)
    · injection h with hh _
      exact hi hh
    · injection h with hh _
      exact hi hh
  · unfold isNanForm
    rw [show (c0 :: t0).take 3 = c0 :: t0.take 2 from rfl,
      show (c0 :: t0).take 4 = c0 :: t0.take 3 from rfl]
    simp [hn, hs]

theorem parseDecBody_render (neg : Bool) (ip fp : List Char) (point : Bool)
    (hip : ∀ c ∈ ip, c.isDigit = true) (hfp : ∀ c ∈ fp, c.isDigit = true)
    (hne : ¬(ip = [] ∧ fp = [])) (hpt : point = false → fp = []) :
    parseDecBody neg (ip ++ (if point then '.' :: fp else [])) =
      some (.fin neg (digitsVal (ip ++ fp)) (-(fp.length : ℤ))) := by
  cases point with
  | false =>
    have hfpe : fp = [] := hpt rfl
    subst hfpe
    have hipne : ip ≠ [] := fun h => hne ⟨h, rfl⟩
    have hspan : spanDigits ip = (ip, []) := by
      have := spanDigits_of_split ip [] hip (by simp)
      simpa using this
    show parseDecBody neg (ip ++ []) = _
    rw [List.append_nil]
    unfold parseDecBody
    rw [hspan]
    simp [hipne]
  | true =>
    have hspan1 : spanDigits (ip ++ '.' :: fp) = (ip, '.' :: fp) :=
      spanDigits_of_split ip ('.' :: fp) hip
        (by
          intro c hc
          simp only [List.head?_cons, Option.some.injEq] at hc
          subst hc
          decide)
    have hspan2 : spanDigits fp = (fp, []) := by
      have := spanDigits_of_split fp [] hfp (by simp)
      simpa using this
    show parseDecBody neg (ip ++ '.' :: fp) = _
    unfold parseDecBody
    rw [hspan1]
    simp [hspan2, hne]

theorem pyDecParse_render (sgn : Option Bool) (ip fp : List Char) (point : Bool)
    (hip : ∀ c ∈ ip, c.isDigit = true) (hfp : ∀ c ∈ fp, c.isDigit = true)
    (hne : ¬(ip = [] ∧ fp = [])) (hpt : point = false → fp = []) :
    pyDecParse (renderDec sgn ip fp point) =
      some (.fin (signBit sgn) (digitsVal (ip ++ fp)) (-(fp.length : ℤ))) := by
  obtain ⟨c0, t0, hrest, hb1, hb2⟩ := restForm_head ip fp point hip hne hpt
  have hclean : ((stripChars (renderDec sgn ip fp point).data).filter
      (fun c => c ≠ '_')).map pyLowerChar = (renderDec sgn ip fp point).data :=
    clean_of_bounds _ (renderDec_chars sgn ip fp point hip hfp)
  have hform : (renderDec sgn ip fp point).data =
      signChars sgn ++ (ip ++ (if point then '.' :: fp else [])) := by
    show signChars sgn ++ ip ++ (if point then '.' :: fp else []) = _
    rw [List.append_assoc]
  have hsplit : splitSign ((renderDec sgn ip fp point).data) =
      (signBit sgn, ip ++ (if point then '.' :: fp else [])) := by
    rw [hform]
    refine splitSign_sign sgn _ ?_
    intro c hch
    rw [hrest] at hch
    simp only [List.head?_cons, Option.some.injEq] at hch
    subst hch
    constructor
    · apply char_ne_of_toNat
      rw [show ('+').toNat = 43 from rfl]
      omega
    · apply char_ne_of_toNat
      rw [show ('-').toNat = 45 from rfl]
      omega
  have hinfnan := not_inf_nan c0 t0 hb1 hb2
  have hcond1 : ¬(ip ++ (if point then '.' :: fp else []) = ['i', 'n', 'f'] ∨
      ip ++ (if point then '.' :: fp else []) =
        ['i', 'n', 'f', 'i', 'n', 'i', 't', 'y']) := by
    rw [hrest]; exact hinfnan.1
  have hcond2 : isNanForm (ip ++ (if point then '.' :: fp else [])) = false := by
    rw [hrest]; exact hinfnan.2
  unfold pyDecParse
  rw [hclean]
  simp only [hsplit, if_neg hcond1, hcond2]
  exact parseDecBody_render (signBit sgn) ip fp point hip hfp hne hpt

theorem val_render (sgn : Option Bool) (ip fp : List Char) :
    PyDec.val (.fin (signBit sgn) (digitsVal (ip ++ fp)) (-(fp.length : ℤ))) =
      specDecValue sgn ip fp := by
  simp only [PyDec.val, specDecValue]
  rw [digitsVal_append, zpow_neg, zpow_natCast]
  have h10 : ((10 : ℚ) ^ fp.length) ≠ 0 := pow_ne_zero _ (by norm_num)
  push_cast
  field_simp

theorem renderDec_not_blank (sgn : Option Bool) (ip fp : List Char) (point : Bool)
    (hip : ∀ c ∈ ip, c.isDigit = true) (hfp : ∀ c ∈ fp, c.isDigit = true)
    (hne : ¬(ip = [] ∧ fp = [])) (hpt : point = false → fp = []) :
    priceBlank (some (renderDec sgn ip fp point)) = false := by
  obtain ⟨c0, t0, hrest, _, _⟩ := restForm_head ip fp point hip hne hpt
  have hstrip : pyStrip (renderDec sgn ip fp point) = renderDec sgn ip fp point := by
    show (⟨stripChars (renderDec sgn ip fp point).data⟩ : String) = _
    rw [stripChars_eq_self _ (fun c hc =>
      isPySpace_false_of_bounds c (renderDec_chars sgn ip fp point hip hfp c hc).1
        (renderDec_chars sgn ip fp point hip hfp c hc).2)]
  have hne2 : renderDec sgn ip fp point ≠ "" := by
    intro heq
    have hd : (renderDec sgn ip fp point).data = [] := by rw [heq]
    have hform : (renderDec sgn ip fp point).data =
        signChars sgn ++ (ip ++ (if point then '.' :: fp else [])) := by
      show signChars sgn ++ ip ++ (if point then '.' :: fp else []) = _
      rw [List.append_assoc]
    rw [hform, hrest] at hd
    rcases List.append_eq_nil.mp hd with ⟨_, h2⟩
    exact List.cons_ne_nil _ _ h2
  simp [priceBlank, hstrip, hne2]

/-- Claim C8: (1) every string denoting a valid positive decimal number
— a literal with optional sign, integer digits, optional point and
fraction digits, `renderDec` — is accepted by `validate_quantity` (and
by `validate_price` / `validate_stop_price` under every order type),
and the returned `Decimal` carries exactly the denoted rational value,
with no rounding; (2) every string the decimal grammar rejects
("non-numeric") fails with a `ValidationError`; (3) every parsed finite
value `≤ 0` fails with a `ValidationError`. -/
theorem claim_C8 :
    (∀ (sgn : Option Bool) (ip fp : List Char) (point : Bool),
      (∀ c ∈ ip, c.isDigit = true) → (∀ c ∈ fp, c.isDigit = true) →
      ¬(ip = [] ∧ fp = []) → (point = false → fp = []) →
      0 < specDecValue sgn ip fp →
      ∃ d : PyDec,
        validate_quantity (renderDec sgn ip fp point) = .ok d ∧
        PyDec.val d = specDecValue sgn ip fp ∧
        ∀ ot : String,
          validate_price (some (renderDec sgn ip fp point)) ot = .ok (some d) ∧
          validate_stop_price (some (renderDec sgn ip fp point)) ot = .ok (some d)) ∧
    (∀ s : String, pyDecParse s = none →
      validate_quantity s = .error (.validationError
        ("Invalid quantity \x27" ++ s ++ "\x27. Must be a positive number."))) ∧
    (∀ (s : String) (neg : Bool) (c : ℕ) (e : ℤ),
      pyDecParse s = some (.fin neg c e) → PyDec.val (.fin neg c e) ≤ 0 →
      validate_quantity s = .error (.validationError
        ("Quantity must be greater than zero, got: " ++
          pyDecStr (.fin neg c e) ++ "."))) := by
  refine ⟨?_, ?_, ?_⟩
  · intro sgn ip fp point hip hfp hne hpt hq
    have hparse := pyDecParse_render sgn ip fp point hip hfp hne hpt
    have hval := val_render sgn ip fp
    have hpos : ¬ PyDec.val
        (.fin (signBit sgn) (digitsVal (ip ++ fp)) (-(fp.length : ℤ))) ≤ 0 := by
      rw [hval]
      exact not_le.mpr hq
    have hle : decLeZero
        (.fin (signBit sgn) (digitsVal (ip ++ fp)) (-(fp.length : ℤ))) = .ok false := by
      simp only [decLeZero]
      rw [decide_eq_false hpos]
    have hblank := renderDec_not_blank sgn ip fp point hip hfp hne hpt
    refine ⟨.fin (signBit sgn) (digitsVal (ip ++ fp)) (-(fp.length : ℤ)), ?_, hval, ?_⟩
    · unfold validate_quantity
      rw [hparse]
      simp [hle]
    · intro ot
      constructor
      · unfold validate_price
        simp [hblank, hparse, hle]
      · unfold validate_stop_price
        simp [hblank, hparse, hle]
  · intro s h
    simp [validate_quantity, h]
  · intro s neg c e hparse hle
    have hd : decLeZero (.fin neg c e) = .ok true := by
      simp only [decLeZero]
      rw [decide_eq_true hle]
    simp [validate_quantity, hparse, hd]

/-- Witness for C8: `"0.00010000"` is the literal with integer digit
`0` and fraction digits `00010000`; `validate_quantity` accepts it with
exactly the denoted value (which is `1/10000`), and `"abc"` fails. -/
theorem claim_C8_witness :
    (∃ d : PyDec,
      validate_quantity (renderDec none ['0'] ['0', '0', '0', '1', '0', '0', '0', '0'] true) = .ok d ∧
      PyDec.val d = specDecValue none ['0'] ['0', '0', '0', '1', '0', '0', '0', '0'] ∧
      ∀ ot : String,
        validate_price (some (renderDec none ['0'] ['0', '0', '0', '1', '0', '0', '0', '0'] true)) ot = .ok (some d) ∧
        validate_stop_price (some (renderDec none ['0'] ['0', '0', '0', '1', '0', '0', '0', '0'] true)) ot = .ok (some d)) ∧
    renderDec none ['0'] ['0', '0', '0', '1', '0', '0', '0', '0'] true = "0.00010000" ∧
    specDecValue none ['0'] ['0', '0', '0', '1', '0', '0', '0', '0'] = 1 / 10000 ∧
    validate_quantity "abc" = .error (.validationError
      "Invalid quantity \x27abc\x27. Must be a positive number.") := by
  have hval : specDecValue none ['0'] ['0', '0', '0', '1', '0', '0', '0', '0'] =
      1 / 10000 := by
    norm_num [specDecValue, signBit,
      show digitsVal ['0'] = 0 from rfl,
      show digitsVal ['0', '0', '0', '1', '0', '0', '0', '0'] = 10000 from rfl,
      show (['0', '0', '0', '1', '0', '0', '0', '0'] : List Char).length = 8 from rfl]
  refine ⟨claim_C8.1 none ['0'] ['0', '0', '0', '1', '0', '0', '0', '0'] true
      (by decide) (by decide) (by decide) (by decide) ?_,
    rfl, hval, claim_C8.2.1 "abc" rfl⟩
  rw [hval]
  norm_num

end TradingBot
